import Mathlib

/-!
Verification development for the cimpl repository: a type-erased,
double-free-safe resource-handle system with a universal release
operation, a thread-local error channel, a UUID value type, and a
callback-driven stream core.  The visible sources are client examples
and a C++ wrapper; the library cores they exercise are reconstructed
here from the specification (definitions so marked), while the C++
wrapper (uuid.cpp / uuid.hpp) is embedded directly from its source.
-/

namespace Cimpl

/-! ## Error taxonomy (spec section 7) -/

/-- Modelled from the spec: the error taxonomy of section 7.  The concrete
C library assigning integer codes is not in the visible sources. -/
inductive ErrKind where
  | nullParameter
  | invalidHandle
  | alreadyFreed
  | typeMismatch
  | parseError
  | outOfMemory
  | ioError
  | outOfRange
  deriving DecidableEq, Repr

/-- Modelled from the spec: each error kind carries a nonzero integer code
(spec section 3, Error State: code is an integer different from 0). -/
def ErrKind.code : ErrKind → Int
  | .nullParameter => 1
  | .invalidHandle => 2
  | .alreadyFreed => 3
  | .typeMismatch => 4
  | .parseError => 5
  | .outOfMemory => 6
  | .ioError => 7
  | .outOfRange => 8

/-! ## Error Channel (spec section 4.1) -/

/-- Modelled from the spec: the per-execution-context last-error slot,
a record of code and message; the C implementation is not in the
visible sources. -/
structure ErrChan where
  code : Int
  msg : String
  deriving DecidableEq, Repr

/-- Modelled from the spec: clear resets the channel to the zero/empty state. -/
def ErrChan.clear : ErrChan := ⟨0, ""⟩

/-- Modelled from the spec: set overwrites the current state with the
code and message of the failing operation. -/
def ErrChan.set (k : ErrKind) (m : String) : ErrChan := ⟨k.code, m⟩

/-! ## Resource Registry (spec section 4.2) -/

/-- Modelled from the spec: the payloads the registry can hold, one
constructor per handle kind the library hands out: mutable strings,
UUID values, stream cursors, and returned string/byte buffers.  The
constructor is the stored kind tag. -/
inductive Payload where
  | str (s : String)
  | uuidP (bytes : List Nat)
  | streamP (ctx : Nat)
  | buffer (bytes : List Nat)
  deriving DecidableEq, Repr

/-- Modelled from the spec: the kind tag stored with each live payload. -/
inductive Kind where
  | stringKind
  | uuidKind
  | streamKind
  | bufferKind
  deriving DecidableEq, Repr

/-- The kind tag carried by a payload, dispatched on by the universal free. -/
def Payload.kind : Payload → Kind
  | .str _ => .stringKind
  | .uuidP _ => .uuidKind
  | .streamP _ => .streamKind
  | .buffer _ => .bufferKind

/-- Modelled from the spec: a registry slot is either live (holding a
payload with its kind tag) or a tombstone retained after release so a
double free is detectable (spec section 4.2 and section 9). -/
inductive Slot where
  | live (p : Payload)
  | tombstone
  deriving DecidableEq, Repr

/-- Modelled from the spec: the registry tracks every handle ever issued;
a handle is an index into the slot list, and slots are never removed,
only tombstoned. -/
structure Registry where
  slots : List Slot
  deriving DecidableEq, Repr

/-- Modelled from the spec: register allocates a fresh handle for a payload;
the handle is the index of the new slot. -/
def Registry.register (r : Registry) (p : Payload) : Registry × Nat :=
  (⟨r.slots ++ [.live p]⟩, r.slots.length)

/-- Modelled from the spec: the universal free (releaseAny / cimple_free /
cimpl_free / uuid_free).  It dispatches on the stored kind tag without the
caller naming the type: on a live handle it tombstones the slot and
succeeds; on a tombstoned handle it fails with AlreadyFreed; on an unknown
handle it fails with InvalidHandle; in both failure cases the registry is
returned unchanged. -/
def Registry.releaseAny (r : Registry) (h : Nat) : (Except ErrKind Kind) × Registry :=
  match r.slots.get? h with
  | none => (.error .invalidHandle, r)
  | some .tombstone => (.error .alreadyFreed, r)
  | some (.live p) => (.ok p.kind, ⟨r.slots.set h .tombstone⟩)

/-- Modelled from the spec: validate checks a handle before any operation,
failing with InvalidHandle when unknown, AlreadyFreed when tombstoned and
TypeMismatch when the stored kind differs from the expected one. -/
def Registry.validate (r : Registry) (h : Nat) (k : Kind) : Except ErrKind Payload :=
  match r.slots.get? h with
  | none => .error .invalidHandle
  | some .tombstone => .error .alreadyFreed
  | some (.live p) => if p.kind = k then .ok p else .error .typeMismatch

/-! ## Library state and fallible operations (spec sections 4.1 to 4.4) -/

/-- Modelled from the spec: the state a library call sees, the registry
plus the error channel of the calling execution context. -/
structure LibState where
  reg : Registry
  err : ErrChan
  deriving DecidableEq, Repr

/-- Modelled from the spec: the universal free as a library entry point,
writing the error channel before returning its sentinel on failure and
leaving the channel untouched on success. -/
def freeOp (s : LibState) (h : Nat) : (Except ErrKind Kind) × LibState :=
  match s.reg.releaseAny h with
  | (.error k, r) => (.error k, ⟨r, .set k "free failed"⟩)
  | (.ok k, r) => (.ok k, ⟨r, s.err⟩)

/-- Modelled from the spec: mystring_set_value.  Validates the handle,
fails with NullParameter when the text is null, otherwise replaces the
payload in place; the error channel is written exactly on failure. -/
def setValueOp (s : LibState) (h : Nat) (text : Option String) :
    (Except ErrKind Unit) × LibState :=
  match s.reg.validate h .stringKind with
  | .error k => (.error k, ⟨s.reg, .set k "invalid handle"⟩)
  | .ok _ =>
    match text with
    | none => (.error .nullParameter, ⟨s.reg, .set .nullParameter "text is null"⟩)
    | some t => (.ok (), ⟨⟨s.reg.slots.set h (.live (.str t))⟩, s.err⟩)

/-- Modelled from the spec: clearError resets the channel of the calling
context to the zero/empty state. -/
def clearErrorOp (s : LibState) : LibState := ⟨s.reg, .clear⟩

/-! ## UUID value type (spec sections 3 and 4.4).
A UUID is 16 bytes; the canonical string form is 8-4-4-4-12 lowercase
hex grouped by hyphens, parsing is case-insensitive, and the total order
is unsigned big-endian byte-wise comparison. -/

/-- Modelled from the spec: the lowercase hex digit for a value below 16. -/
def hexDigitChar (n : Nat) : Char :=
  if n < 10 then Char.ofNat (48 + n) else Char.ofNat (87 + n)

/-- Modelled from the spec: the value of a hex digit, case-insensitive;
none for a character that is not a hex digit. -/
def hexVal? (c : Char) : Option Nat :=
  if 48 ≤ c.toNat ∧ c.toNat ≤ 57 then some (c.toNat - 48)
  else if 97 ≤ c.toNat ∧ c.toNat ≤ 102 then some (c.toNat - 87)
  else if 65 ≤ c.toNat ∧ c.toNat ≤ 70 then some (c.toNat - 55)
  else none

/-- Two lowercase hex characters of one byte, high nibble first. -/
def byteHex (b : Nat) : List Char := [hexDigitChar (b / 16), hexDigitChar (b % 16)]

/-- Hex characters of a byte group, in order. -/
def groupHex : List Nat → List Char
  | [] => []
  | b :: bs => byteHex b ++ groupHex bs

/-- Modelled from the spec: uuid_to_string, the canonical 8-4-4-4-12
lowercase hyphenated form of the 16 bytes. -/
def uuidToChars (bs : List Nat) : List Char :=
  groupHex (bs.take 4) ++ '-' ::
    (groupHex ((bs.drop 4).take 2) ++ '-' ::
      (groupHex ((bs.drop 6).take 2) ++ '-' ::
        (groupHex ((bs.drop 8).take 2) ++ '-' ::
          groupHex (bs.drop 10))))

/-- Reads exactly n bytes as 2n hex characters from the front of a
character list, returning the bytes and the remaining characters. -/
def readBytes : Nat → List Char → Option (List Nat × List Char)
  | 0, cs => some ([], cs)
  | n + 1, c1 :: c2 :: cs =>
    match hexVal? c1, hexVal? c2 with
    | some hi, some lo =>
      match readBytes n cs with
      | some (bs, rest) => some ((hi * 16 + lo) :: bs, rest)
      | none => none
    | _, _ => none
  | _ + 1, _ => none

/-- Consumes one hyphen from the front of the character list. -/
def expectDash : List Char → Option (List Char)
  | '-' :: cs => some cs
  | _ => none

/-- Modelled from the spec: uuid_parse, accepting exactly the canonical
8-4-4-4-12 hyphenated hex form, case-insensitive, and returning the 16
bytes; any other shape yields none. -/
def uuidParse (cs : List Char) : Option (List Nat) :=
  match readBytes 4 cs with
  | none => none
  | some (b1, r0) =>
    match expectDash r0 with
    | none => none
    | some r1 =>
      match readBytes 2 r1 with
      | none => none
      | some (b2, r2) =>
        match expectDash r2 with
        | none => none
        | some r3 =>
          match readBytes 2 r3 with
          | none => none
          | some (b3, r4) =>
            match expectDash r4 with
            | none => none
            | some r5 =>
              match readBytes 2 r5 with
              | none => none
              | some (b4, r6) =>
                match expectDash r6 with
                | none => none
                | some r7 =>
                  match readBytes 6 r7 with
                  | some (b5, []) => some (b1 ++ b2 ++ b3 ++ b4 ++ b5)
                  | _ => none

/-- The spec wording for the shape uuid_parse must accept: five hyphen
separated groups of hex digits with lengths 8, 4, 4, 4 and 12.  This
definition follows the words of the specification and is compared with
the parser above. -/
def IsCanonicalShape (cs : List Char) : Prop :=
  ∃ g1 g2 g3 g4 g5 : List Char,
    cs = g1 ++ '-' :: (g2 ++ '-' :: (g3 ++ '-' :: (g4 ++ '-' :: g5))) ∧
    g1.length = 8 ∧ g2.length = 4 ∧ g3.length = 4 ∧ g4.length = 4 ∧
    g5.length = 12 ∧
    (∀ c ∈ g1 ++ g2 ++ g3 ++ g4 ++ g5, (hexVal? c).isSome)

/-- Modelled from the spec: uuid_compare, the unsigned big-endian
byte-wise total order on UUID byte vectors, returning -1, 0 or 1. -/
def bytesCompare : List Nat → List Nat → Int
  | [], [] => 0
  | [], _ :: _ => -1
  | _ :: _, [] => 1
  | a :: as, b :: bs =>
    if a < b then -1 else if b < a then 1 else bytesCompare as bs

/-- Modelled from the spec: uuid_equals, byte-wise equality. -/
def uuidEquals (a b : List Nat) : Bool := a == b

/-- Modelled from the spec: uuid_nil, the all-zero UUID. -/
def uuidNil : List Nat := List.replicate 16 0

/-- Modelled from the spec: uuid_max, the all-one-bits UUID. -/
def uuidMax : List Nat := List.replicate 16 255

/-- Big-endian byte encoding of a value into a fixed number of bytes,
most significant byte first. -/
def beBytes : Nat → Nat → List Nat
  | 0, _ => []
  | n + 1, v => v / 256 ^ n :: beBytes n (v % 256 ^ n)

/-- Sets the version nibble of byte 6 to 7 and the variant bits of
byte 8 to the binary pattern one-zero, per the v7 layout. -/
def setVersion7 : List Nat → List Nat
  | b6 :: b7 :: b8 :: rest => (112 + b6 % 16) :: b7 :: (128 + b8 % 64) :: rest
  | r => r

/-- Modelled from the spec: uuid_new_v7 — the 48-bit millisecond
timestamp occupies the first six bytes big-endian, followed by the
version and variant bits over the random remainder.  The wall-clock
reading and the random source are inputs of the model. -/
def uuidV7 (ts : Nat) (rand : List Nat) : List Nat :=
  beBytes 6 ts ++ setVersion7 rand

/-- Modelled from the spec: the uuid_parse library entry point, writing
ParseError into the error channel before returning its null sentinel and
leaving the channel untouched on success. -/
def parseOp (s : LibState) (text : String) :
    (Except ErrKind (List Nat)) × LibState :=
  match uuidParse text.toList with
  | none => (.error .parseError, ⟨s.reg, .set .parseError "invalid UUID format"⟩)
  | some bs => (.ok bs, ⟨s.reg, s.err⟩)

/-! ## Stream core (spec section 4.5).
The Stream Core delegates to backend callbacks; position state lives in
the backend context.  The model below is the memory backend the spec
scenario describes: a byte buffer with a cursor. -/

/-- Seek reference points, from CIMPL_SEEK_MODE_START / CURRENT / END. -/
inductive SeekMode where
  | Start
  | Current
  | End
  deriving DecidableEq, Repr

/-- Modelled from the spec: the backend context of a byte stream, a
buffer plus the cursor position. -/
structure MemStream where
  buf : List Nat
  pos : Nat
  deriving DecidableEq, Repr

/-- The reference point a seek mode selects, exactly like a standard
file cursor: Start is the beginning, Current the cursor, End the total
length. -/
def seekTarget (s : MemStream) (off : Int) : SeekMode → Int
  | .Start => off
  | .Current => (s.pos : Int) + off
  | .End => (s.buf.length : Int) + off

/-- Modelled from the spec: cimpl_stream_seek.  A negative resulting
absolute position is a failure (OutOfRange), never a clamp, and the
stream is unchanged; otherwise the cursor moves and the new absolute
position is returned. -/
def streamSeek (s : MemStream) (off : Int) (mode : SeekMode) :
    (Except ErrKind Nat) × MemStream :=
  let t := seekTarget s off mode
  if t < 0 then (.error .outOfRange, s)
  else (.ok t.toNat, ⟨s.buf, t.toNat⟩)

/-- Modelled from the spec: cimpl_stream_read, returning up to n bytes
from the cursor and advancing it by the bytes actually read; reading 0
bytes at end of data is not a failure. -/
def streamRead (s : MemStream) (n : Nat) : List Nat × MemStream :=
  let chunk := (s.buf.drop s.pos).take n
  (chunk, ⟨s.buf, s.pos + chunk.length⟩)

/-- Modelled from the spec: cimpl_stream_write, overwriting at the
cursor and advancing it, returning the byte count written. -/
def streamWrite (s : MemStream) (data : List Nat) : Nat × MemStream :=
  (data.length,
   ⟨s.buf.take s.pos ++ data ++ s.buf.drop (s.pos + data.length),
    s.pos + data.length⟩)

/-! ## C++ wrapper (embedded from src/uuid-example/bindings/cpp/uuid.cpp
and uuid.hpp).  A null ::Uuid pointer is none; C++ exceptions are the
error side of Except.  The error channel is the ErrChan model above. -/

/-- The UuidError exception of uuid.hpp: an error code and a message. -/
structure UuidErrorExn where
  code : Int
  msg : String
  deriving DecidableEq, Repr

/-- Uuid::checkError from uuid.cpp: when the channel code is nonzero it
captures code and message, clears the channel and throws; otherwise it
returns with the channel untouched. -/
def checkError (e : ErrChan) : (Option UuidErrorExn) × ErrChan :=
  if e.code ≠ 0 then (some ⟨e.code, e.msg⟩, ErrChan.clear) else (none, e)

/-- The cimpl::Uuid wrapper object: its ptr_ member, a possibly null
pointer to the underlying 16-byte value. -/
structure CppUuid where
  ptr_ : Option (List Nat)
  deriving DecidableEq, Repr

/-- The private constructor Uuid::Uuid(::Uuid*) from uuid.cpp: on a null
pointer it calls checkError (throwing the channel error if set) and then
throws UuidError(-1, "UUID pointer is null"); on a non-null pointer it
stores it. -/
def uuidCtor (p : Option (List Nat)) (e : ErrChan) :
    (Except UuidErrorExn CppUuid) × ErrChan :=
  match p with
  | some v => (.ok ⟨some v⟩, e)
  | none =>
    match checkError e with
    | (some exn, e2) => (.error exn, e2)
    | (none, e2) => (.error ⟨-1, "UUID pointer is null"⟩, e2)

/-- Uuid::parse from uuid.cpp: calls uuid_parse, calls checkError when
the result is null, then hands the pointer to the private constructor.
The C call result is an input of the model. -/
def parseFactory (pr : Option (List Nat)) (e : ErrChan) :
    (Except UuidErrorExn CppUuid) × ErrChan :=
  match pr with
  | some v => uuidCtor (some v) e
  | none =>
    match checkError e with
    | (some exn, e2) => (.error exn, e2)
    | (none, e2) => uuidCtor none e2

/-- The copy constructor Uuid::Uuid(const Uuid&) from uuid.cpp: parses
the string form of the other object back through the C API; when the
parse result is null it calls checkError, and afterwards assigns
whatever pointer it has — a fall-through that stores null when the
channel held no error.  The parse result is an input of the model. -/
def copyCtor (pr : Option (List Nat)) (e : ErrChan) :
    (Except UuidErrorExn CppUuid) × ErrChan :=
  match pr with
  | some v => (.ok ⟨some v⟩, e)
  | none =>
    match checkError e with
    | (some exn, e2) => (.error exn, e2)
    | (none, e2) => (.ok ⟨none⟩, e2)

/-- The copy assignment Uuid::operator= from uuid.cpp: a self assignment
returns the object unchanged, otherwise the body is the copy
constructor's. -/
def copyAssign (cur : CppUuid) (same : Bool) (pr : Option (List Nat))
    (e : ErrChan) : (Except UuidErrorExn CppUuid) × ErrChan :=
  if same then (.ok cur, e) else copyCtor pr e

/-- The exceptions Uuid::fromBytes can throw. -/
inductive CppExn where
  | invalidArgument (msg : String)
  | runtimeError (msg : String)
  deriving DecidableEq, Repr

/-- Uuid::fromBytes from uuid.cpp: a size other than 16 throws
std::invalid_argument; otherwise it constructs a nil UUID (uuid_nil is
modelled as always succeeding, per its contract) and then
unconditionally throws std::runtime_error. -/
def fromBytes (bytes : List Nat) : Except CppExn CppUuid :=
  if bytes.length ≠ 16 then
    .error (.invalidArgument
      ("UUID requires exactly 16 bytes, got " ++ toString bytes.length))
  else
    .error (.runtimeError
      "fromBytes not yet implemented - add uuid_from_bytes to C API")

/-- The bytes of "ABCDEFGHIJ", the payload of the seek/read scenario in
spec section 8. -/
def demoBytes : List Nat := [65, 66, 67, 68, 69, 70, 71, 72, 73, 74]

theorem ErrKind.code_ne_zero (k : ErrKind) : k.code ≠ 0 := by
  cases k <;> decide

/-! ## Supporting lemmas on registry slots -/

theorem get?_concat_self {α : Type} (l : List α) (a : α) :
    (l ++ [a]).get? l.length = some a := by
  induction l with
  | nil => rfl
  | cons x xs ih =>
    rw [List.cons_append, List.length_cons, List.get?_cons_succ]
    exact ih

theorem get?_set_self {α : Type} (l : List α) (i : Nat) (a : α)
    (h : i < l.length) : (l.set i a).get? i = some a := by
  induction l generalizing i with
  | nil => simp at h
  | cons x xs ih =>
    cases i with
    | zero => rfl
    | succ n => simpa using ih n (by simpa using h)

theorem register_slot (r : Registry) (p : Payload) :
    ((r.register p).1).slots.get? (r.register p).2 = some (.live p) :=
  get?_concat_self r.slots (.live p)

/-- Releasing the handle just registered tombstones its slot and reports
the stored kind. -/
theorem releaseAny_fresh (r : Registry) (p : Payload) :
    ((r.register p).1).releaseAny (r.register p).2 =
      (.ok p.kind, ⟨((r.register p).1).slots.set (r.register p).2 .tombstone⟩) := by
  unfold Registry.releaseAny
  rw [register_slot]

/-- A tombstoned slot makes every further releaseAny fail with
AlreadyFreed, leaving the registry unchanged. -/
theorem releaseAny_tombstone (r : Registry) (h : Nat)
    (ht : r.slots.get? h = some .tombstone) :
    r.releaseAny h = (.error .alreadyFreed, r) := by
  unfold Registry.releaseAny
  rw [ht]

/-- C1: a handle obtained from a factory is released successfully exactly
once; every subsequent release fails with AlreadyFreed, returns that same
error on each repetition indefinitely, and leaves the registry unchanged
(the model is total, so no call can crash). -/
theorem release_exactly_once (r r1 : Registry) (p : Payload) (h : Nat)
    (hreg : r.register p = (r1, h)) :
    ∃ r2 : Registry,
      r1.releaseAny h = (.ok p.kind, r2) ∧
      r2.releaseAny h = (.error .alreadyFreed, r2) ∧
      ∀ n : Nat, (fun s : Registry => (s.releaseAny h).2)^[n] r2 = r2 := by
  have h1 := releaseAny_fresh r p
  rw [hreg] at h1
  have hh : h = r.slots.length := by
    have := congrArg Prod.snd hreg
    simpa [Registry.register] using this.symm
  have hr1 : r1.slots = r.slots ++ [Slot.live p] := by
    have := congrArg (fun q : Registry × Nat => q.1.slots) hreg
    simpa [Registry.register] using this.symm
  refine ⟨⟨r1.slots.set h .tombstone⟩, h1, ?_, ?_⟩
  · apply releaseAny_tombstone
    apply get?_set_self
    rw [hr1, hh]
    simp
  · intro n
    induction n with
    | zero => rfl
    | succ m ih =>
      rw [Function.iterate_succ_apply, releaseAny_tombstone, ih]
      apply get?_set_self
      rw [hr1, hh]
      simp

/-- Closed witness for release_exactly_once at a concrete registry. -/
theorem release_exactly_once_witness :
    ∃ r2 : Cimpl.Registry,
      (Cimpl.Registry.mk [.live (.str "x")]).releaseAny 0 = (.ok .stringKind, r2) ∧
      r2.releaseAny 0 = (.error .alreadyFreed, r2) ∧
      ∀ n : Nat, (fun s : Cimpl.Registry => (s.releaseAny 0).2)^[n] r2 = r2 :=
  release_exactly_once ⟨[]⟩ ⟨[.live (.str "x")]⟩ (.str "x") 0 rfl

/-- C2: the universal free succeeds on every kind of live handle the
library hands out — string values, UUID values, stream cursors and
returned buffers alike — dispatching on the stored kind tag without the
caller naming the type. -/
theorem universal_free_all_kinds (r r1 : Registry) (p : Payload) (h : Nat)
    (hreg : r.register p = (r1, h)) :
    (r1.releaseAny h).1 = .ok p.kind := by
  have h1 := releaseAny_fresh r p
  rw [hreg] at h1
  rw [h1]

/-- Closed witness for universal_free_all_kinds, exercising one live
handle of each of the four kinds. -/
theorem universal_free_all_kinds_witness :
    ((Cimpl.Registry.mk [.live (.str "s")]).releaseAny 0).1 = .ok .stringKind ∧
    ((Cimpl.Registry.mk [.live (.uuidP Cimpl.uuidNil)]).releaseAny 0).1 = .ok .uuidKind ∧
    ((Cimpl.Registry.mk [.live (.streamP 0)]).releaseAny 0).1 = .ok .streamKind ∧
    ((Cimpl.Registry.mk [.live (.buffer [1, 2])]).releaseAny 0).1 = .ok .bufferKind :=
  ⟨universal_free_all_kinds ⟨[]⟩ _ (.str "s") 0 rfl,
   universal_free_all_kinds ⟨[]⟩ _ (.uuidP uuidNil) 0 rfl,
   universal_free_all_kinds ⟨[]⟩ _ (.streamP 0) 0 rfl,
   universal_free_all_kinds ⟨[]⟩ _ (.buffer [1, 2]) 0 rfl⟩

/-- C3: every modelled fallible operation writes a nonzero code and a
nonempty message into the error channel when it fails and leaves the
channel untouched when it succeeds; clearError resets the channel to
code 0 and empty message regardless of prior failures. -/
theorem error_channel_discipline (s : LibState) (h : Nat)
    (t : Option String) (text : String) :
    (∀ k res, freeOp s h = (.error k, res) →
      res.err.code = k.code ∧ res.err.code ≠ 0 ∧ res.err.msg ≠ "") ∧
    (∀ k res, freeOp s h = (.ok k, res) → res.err = s.err) ∧
    (∀ k res, setValueOp s h t = (.error k, res) →
      res.err.code = k.code ∧ res.err.code ≠ 0 ∧ res.err.msg ≠ "") ∧
    (∀ res, setValueOp s h t = (.ok (), res) → res.err = s.err) ∧
    (∀ k res, parseOp s text = (.error k, res) →
      res.err.code = k.code ∧ res.err.code ≠ 0 ∧ res.err.msg ≠ "") ∧
    (∀ bs res, parseOp s text = (.ok bs, res) → res.err = s.err) ∧
    ((clearErrorOp s).err.code = 0 ∧ (clearErrorOp s).err.msg = "") := by
  refine ⟨?_, ?_, ?_, ?_, ?_, ?_, by simp [clearErrorOp, ErrChan.clear]⟩
  · intro k res hres
    unfold freeOp at hres
    split at hres
    · cases hres
      exact ⟨rfl, ErrKind.code_ne_zero _, by simp [ErrChan.set]⟩
    · cases hres
  · intro k res hres
    unfold freeOp at hres
    split at hres
    · cases hres
    · cases hres
      rfl
  · intro k res hres
    unfold setValueOp at hres
    split at hres
    · cases hres
      exact ⟨rfl, ErrKind.code_ne_zero _, by simp [ErrChan.set]⟩
    · split at hres
      · cases hres
        exact ⟨rfl, by simp [ErrChan.set, ErrKind.code], by simp [ErrChan.set]⟩
      · cases hres
  · intro res hres
    unfold setValueOp at hres
    split at hres
    · cases hres
    · split at hres
      · cases hres
      · cases hres
        rfl
  · intro k res hres
    unfold parseOp at hres
    split at hres
    · cases hres
      exact ⟨rfl, by simp [ErrChan.set, ErrKind.code], by simp [ErrChan.set]⟩
    · cases hres
  · intro bs res hres
    unfold parseOp at hres
    split at hres
    · cases hres
    · cases hres
      rfl

/-! ## Hex round-trip lemmas for the UUID string form -/

theorem hexVal_hexDigitChar : ∀ n : Fin 16, hexVal? (hexDigitChar n.val) = some n.val := by
  decide

theorem hexVal_lt (c : Char) (v : Nat) (h : hexVal? c = some v) : v < 16 := by
  unfold hexVal? at h
  split at h
  · cases h; omega
  · split at h
    · cases h; omega
    · split at h
      · cases h; omega
      · cases h

theorem readBytes_groupHex (bs : List Nat) (rest : List Char)
    (hb : ∀ b ∈ bs, b < 256) :
    readBytes bs.length (groupHex bs ++ rest) = some (bs, rest) := by
  induction bs with
  | nil => rfl
  | cons b bs ih =>
    have hb0 : b < 256 := hb b (by simp)
    have h1 : hexVal? (hexDigitChar (b / 16)) = some (b / 16) :=
      hexVal_hexDigitChar ⟨b / 16, by omega⟩
    have h2 : hexVal? (hexDigitChar (b % 16)) = some (b % 16) :=
      hexVal_hexDigitChar ⟨b % 16, by omega⟩
    have ih2 := ih (fun x hx => hb x (by simp [hx]))
    simp only [List.length_cons, groupHex, byteHex, List.cons_append, List.append_eq,
      List.nil_append, List.append_assoc, readBytes, h1, h2]
    rw [ih2]
    show some ((b / 16 * 16 + b % 16) :: bs, rest) = some (b :: bs, rest)
    have : b / 16 * 16 + b % 16 = b := by omega
    rw [this]

theorem readBytes_groupHex_of_length (n : Nat) (bs : List Nat) (rest : List Char)
    (hn : bs.length = n) (hb : ∀ b ∈ bs, b < 256) :
    readBytes n (groupHex bs ++ rest) = some (bs, rest) := by
  subst hn
  exact readBytes_groupHex bs rest hb

theorem drop_take_append (k m : Nat) (bs : List Nat) :
    (bs.drop k).take m ++ bs.drop (k + m) = bs.drop k := by
  have h : bs.drop (k + m) = (bs.drop k).drop m := by
    rw [List.drop_drop, Nat.add_comm]
  rw [h, List.take_append_drop]

theorem take_drop_split (bs : List Nat) :
    bs.take 4 ++ ((bs.drop 4).take 2 ++ ((bs.drop 6).take 2 ++
      ((bs.drop 8).take 2 ++ bs.drop 10))) = bs := by
  rw [show (10 : Nat) = 8 + 2 from rfl, drop_take_append 8 2 bs,
    show (8 : Nat) = 6 + 2 from rfl, drop_take_append 6 2 bs,
    show (6 : Nat) = 4 + 2 from rfl, drop_take_append 4 2 bs,
    List.take_append_drop]

/-- C4: parsing the canonical string produced by toString is the
identity on UUID byte vectors, nil and max included. -/
theorem parse_toString_roundtrip (bs : List Nat) (hlen : bs.length = 16)
    (hb : ∀ b ∈ bs, b < 256) :
    uuidParse (uuidToChars bs) = some bs := by
  have m1 : ∀ b ∈ bs.take 4, b < 256 := fun b h2 => hb b (List.take_subset _ _ h2)
  have m2 : ∀ b ∈ (bs.drop 4).take 2, b < 256 :=
    fun b h2 => hb b (List.drop_subset _ _ (List.take_subset _ _ h2))
  have m3 : ∀ b ∈ (bs.drop 6).take 2, b < 256 :=
    fun b h2 => hb b (List.drop_subset _ _ (List.take_subset _ _ h2))
  have m4 : ∀ b ∈ (bs.drop 8).take 2, b < 256 :=
    fun b h2 => hb b (List.drop_subset _ _ (List.take_subset _ _ h2))
  have m5 : ∀ b ∈ bs.drop 10, b < 256 := fun b h2 => hb b (List.drop_subset _ _ h2)
  have l1 : (bs.take 4).length = 4 := by simp [List.length_take, hlen]
  have l2 : ((bs.drop 4).take 2).length = 2 := by
    simp [List.length_take, List.length_drop, hlen]
  have l3 : ((bs.drop 6).take 2).length = 2 := by
    simp [List.length_take, List.length_drop, hlen]
  have l4 : ((bs.drop 8).take 2).length = 2 := by
    simp [List.length_take, List.length_drop, hlen]
  have l5 : (bs.drop 10).length = 6 := by simp [List.length_drop, hlen]
  have e5 := readBytes_groupHex_of_length 6 (bs.drop 10) [] l5 m5
  rw [List.append_nil] at e5
  have e4 := readBytes_groupHex_of_length 2 ((bs.drop 8).take 2)
    ('-' :: groupHex (bs.drop 10)) l4 m4
  have e3 := readBytes_groupHex_of_length 2 ((bs.drop 6).take 2)
    ('-' :: (groupHex ((bs.drop 8).take 2) ++ '-' :: groupHex (bs.drop 10))) l3 m3
  have e2 := readBytes_groupHex_of_length 2 ((bs.drop 4).take 2)
    ('-' :: (groupHex ((bs.drop 6).take 2) ++
      '-' :: (groupHex ((bs.drop 8).take 2) ++ '-' :: groupHex (bs.drop 10)))) l2 m2
  have e1 := readBytes_groupHex_of_length 4 (bs.take 4)
    ('-' :: (groupHex ((bs.drop 4).take 2) ++
      '-' :: (groupHex ((bs.drop 6).take 2) ++
        '-' :: (groupHex ((bs.drop 8).take 2) ++ '-' :: groupHex (bs.drop 10))))) l1 m1
  simp only [uuidToChars, uuidParse, e1, e2, e3, e4, e5, expectDash]
  simp only [List.append_assoc]
  rw [take_drop_split]

/-- Closed witness for parse_toString_roundtrip: the nil UUID round-trips. -/
theorem parse_toString_roundtrip_witness :
    uuidParse (uuidToChars Cimpl.uuidNil) = some Cimpl.uuidNil :=
  parse_toString_roundtrip uuidNil (by decide) (by decide)

/-! ## Lemmas on the byte-wise total order -/

theorem bytesCompare_antisym (a : List Nat) :
    ∀ b : List Nat, bytesCompare a b = -bytesCompare b a := by
  induction a with
  | nil => intro b; cases b <;> simp [bytesCompare]
  | cons x xs ih =>
    intro b
    cases b with
    | nil => simp [bytesCompare]
    | cons y ys =>
      simp only [bytesCompare]
      rcases Nat.lt_trichotomy x y with h | h | h
      · rw [if_pos h, if_neg (by omega), if_pos h]
      · subst h
        rw [if_neg (by omega), if_neg (by omega), if_neg (by omega), if_neg (by omega)]
        exact ih ys
      · rw [if_neg (by omega), if_pos h, if_pos h]
        decide

theorem bytesCompare_trans (a : List Nat) :
    ∀ b c : List Nat, bytesCompare a b < 0 → bytesCompare b c < 0 →
      bytesCompare a c < 0 := by
  induction a with
  | nil =>
    intro b c h1 h2
    cases b with
    | nil => simp [bytesCompare] at h1
    | cons y ys =>
      cases c with
      | nil => simp [bytesCompare] at h2
      | cons z zs => simp [bytesCompare]
  | cons x xs ih =>
    intro b c h1 h2
    cases b with
    | nil => simp [bytesCompare] at h1
    | cons y ys =>
      cases c with
      | nil => simp [bytesCompare] at h2
      | cons z zs =>
        simp only [bytesCompare] at h1 h2 ⊢
        rcases Nat.lt_trichotomy x y with hxy | hxy | hxy
        · rcases Nat.lt_trichotomy y z with hyz | hyz | hyz
          · rw [if_pos (by omega : x < z)]; omega
          · subst hyz; rw [if_pos hxy]; omega
          · rw [if_neg (by omega), if_pos hyz] at h2; omega
        · subst hxy
          rcases Nat.lt_trichotomy x z with hxz | hxz | hxz
          · rw [if_pos hxz]; omega
          · subst hxz
            rw [if_neg (by omega), if_neg (by omega)] at h1 h2 ⊢
            exact ih ys zs h1 h2
          · rw [if_neg (by omega), if_pos hxz] at h2; omega
        · rw [if_neg (by omega), if_pos hxy] at h1; omega

theorem bytesCompare_eq_zero (a : List Nat) :
    ∀ b : List Nat, bytesCompare a b = 0 ↔ a = b := by
  induction a with
  | nil => intro b; cases b <;> simp [bytesCompare]
  | cons x xs ih =>
    intro b
    cases b with
    | nil => simp [bytesCompare]
    | cons y ys =>
      simp only [bytesCompare]
      rcases Nat.lt_trichotomy x y with h | h | h
      · rw [if_pos h]
        constructor
        · intro hc; omega
        · intro hc; cases hc; omega
      · subst h
        rw [if_neg (by omega), if_neg (by omega)]
        rw [ih ys]
        constructor
        · intro hc; rw [hc]
        · intro hc; cases hc; rfl
      · rw [if_neg (by omega), if_pos h]
        constructor
        · intro hc; omega
        · intro hc; cases hc; omega

/-- C5: uuid_compare is a consistent total order on byte vectors:
antisymmetric, transitive on strict comparisons, and agreeing with
byte-wise equality exactly at zero; the order is by definition the
unsigned big-endian byte-wise comparison. -/
theorem compare_total_order (a b c : List Nat) :
    bytesCompare a b = -bytesCompare b a ∧
    (bytesCompare a b < 0 → bytesCompare b c < 0 → bytesCompare a c < 0) ∧
    (uuidEquals a b = true ↔ bytesCompare a b = 0) := by
  refine ⟨bytesCompare_antisym a b, bytesCompare_trans a b c, ?_⟩
  rw [bytesCompare_eq_zero a b, uuidEquals]
  exact beq_iff_eq

/-- Closed witness for compare_total_order, exercising the transitivity
hypothesis at concrete UUID byte vectors. -/
theorem compare_total_order_witness :
    bytesCompare Cimpl.uuidNil Cimpl.uuidMax < 0 :=
  (compare_total_order uuidNil (List.replicate 16 7) uuidMax).2.1
    (by decide) (by decide)

/-- Big-endian encodings of a fixed width compare like the encoded
values, whatever bytes follow them. -/
theorem beBytes_compare (n : Nat) :
    ∀ ts1 ts2 : Nat, ∀ xs ys : List Nat, ts1 < ts2 → ts2 < 256 ^ n →
      bytesCompare (beBytes n ts1 ++ xs) (beBytes n ts2 ++ ys) = -1 := by
  induction n with
  | zero =>
    intro ts1 ts2 xs ys h1 h2
    rw [pow_zero] at h2
    omega
  | succ n ih =>
    intro ts1 ts2 xs ys h1 h2
    simp only [beBytes, List.cons_append, bytesCompare]
    have hdle : ts1 / 256 ^ n ≤ ts2 / 256 ^ n :=
      Nat.div_le_div_right (le_of_lt h1)
    rcases lt_or_eq_of_le hdle with hd | hd
    · rw [if_pos hd]
    · rw [if_neg (by omega), if_neg (by omega)]
      apply ih
      · have e1 := Nat.div_add_mod ts1 (256 ^ n)
        have e2 := Nat.div_add_mod ts2 (256 ^ n)
        rw [hd] at e1
        generalize hq : 256 ^ n * (ts2 / 256 ^ n) = q at e1 e2
        omega
      · exact Nat.mod_lt _ (Nat.pos_pow_of_pos n (by omega))

/-- C8: two v7 UUIDs whose 48-bit millisecond timestamps differ compare
in timestamp order under the byte-wise total order, whatever the random
remainders are, because the timestamp occupies the high bytes. -/
theorem v7_monotonic (ts1 ts2 : Nat) (r1 r2 : List Nat)
    (hlt : ts1 < ts2) (hub : ts2 < 2 ^ 48) :
    bytesCompare (uuidV7 ts1 r1) (uuidV7 ts2 r2) = -1 := by
  have h256 : (256 : Nat) ^ 6 = 2 ^ 48 := by norm_num
  exact beBytes_compare 6 ts1 ts2 (setVersion7 r1) (setVersion7 r2) hlt
    (by rw [h256]; exact hub)

/-- Closed witness for v7_monotonic at two concrete timestamps. -/
theorem v7_monotonic_witness :
    bytesCompare (Cimpl.uuidV7 5 (List.replicate 10 0))
      (Cimpl.uuidV7 6 (List.replicate 10 255)) = -1 :=
  v7_monotonic 5 6 (List.replicate 10 0) (List.replicate 10 255)
    (by omega) (by norm_num)

/-- Closed witness for error_channel_discipline: a failing free on an
empty registry records InvalidHandle, and clearError resets the channel. -/
theorem error_channel_discipline_witness :
    ((Cimpl.freeOp ⟨⟨[]⟩, ⟨0, ""⟩⟩ 0).2.err.code ≠ 0) ∧
    ((Cimpl.clearErrorOp ⟨⟨[]⟩, ⟨7, "boom"⟩⟩).err.code = 0) :=
  ⟨((error_channel_discipline ⟨⟨[]⟩, ⟨0, ""⟩⟩ 0 none "").1
      .invalidHandle ((Cimpl.freeOp ⟨⟨[]⟩, ⟨0, ""⟩⟩ 0).2) rfl).2.1,
   (error_channel_discipline ⟨⟨[]⟩, ⟨7, "boom"⟩⟩ 0 none "").2.2.2.2.2.2.1⟩

/-- C6: stream seek interprets Start, Current and End as the reference
points of a standard file cursor, accepts negative offsets, fails with
OutOfRange (leaving the stream unchanged) rather than clamping when the
resulting absolute position would be negative, and returns the new
absolute position; the written-bytes scenario of section 8 follows. -/
theorem stream_seek_semantics (s : MemStream) (off : Int) (mode : SeekMode) :
    (seekTarget s off mode < 0 → streamSeek s off mode = (.error .outOfRange, s)) ∧
    (0 ≤ seekTarget s off mode →
      streamSeek s off mode =
        (.ok (seekTarget s off mode).toNat, ⟨s.buf, (seekTarget s off mode).toNat⟩)) ∧
    ((streamWrite ⟨[], 0⟩ demoBytes).1 = 10 ∧
     (streamSeek (streamWrite ⟨[], 0⟩ demoBytes).2 0 .Start).1 = .ok 0 ∧
     (streamRead (streamSeek (streamWrite ⟨[], 0⟩ demoBytes).2 0 .Start).2 4).1 =
       [65, 66, 67, 68] ∧
     (streamSeek (streamRead
        (streamSeek (streamWrite ⟨[], 0⟩ demoBytes).2 0 .Start).2 4).2
        (-2) .Current).1 = .ok 2 ∧
     (streamRead (streamSeek (streamRead
        (streamSeek (streamWrite ⟨[], 0⟩ demoBytes).2 0 .Start).2 4).2
        (-2) .Current).2 2).1 = [67, 68] ∧
     (streamSeek (streamRead (streamSeek (streamRead
        (streamSeek (streamWrite ⟨[], 0⟩ demoBytes).2 0 .Start).2 4).2
        (-2) .Current).2 2).2 0 .End).1 = .ok 10) := by
  refine ⟨?_, ?_, rfl, rfl, rfl, rfl, rfl, rfl⟩
  · intro hneg
    unfold streamSeek
    rw [if_pos hneg]
  · intro hpos
    unfold streamSeek
    rw [if_neg (by omega)]

/-- Closed witness for stream_seek_semantics: a Current-mode seek to a
negative absolute position fails and leaves the stream unchanged. -/
theorem stream_seek_semantics_witness :
    Cimpl.streamSeek ⟨Cimpl.demoBytes, 0⟩ (-1) .Current =
      (.error .outOfRange, ⟨Cimpl.demoBytes, 0⟩) :=
  (stream_seek_semantics ⟨demoBytes, 0⟩ (-1) .Current).1 (by decide)

/-- C9: Uuid::fromBytes never returns a value — a byte vector whose size
is not 16 throws std::invalid_argument, and one of exactly 16 bytes
reaches the unconditional throw of std::runtime_error, despite the
declared contract of returning a UUID built from the bytes. -/
theorem fromBytes_never_returns (b : List Nat) :
    (∀ u, fromBytes b ≠ .ok u) ∧
    (b.length ≠ 16 → fromBytes b = .error (.invalidArgument
      ("UUID requires exactly 16 bytes, got " ++ toString b.length))) ∧
    (b.length = 16 → fromBytes b = .error (.runtimeError
      "fromBytes not yet implemented - add uuid_from_bytes to C API")) := by
  unfold fromBytes
  by_cases h : b.length = 16
  · simp [h]
  · simp [h]

/-- Closed witness for fromBytes_never_returns at an empty vector and at
a 16-byte vector. -/
theorem fromBytes_never_returns_witness :
    Cimpl.fromBytes [] = .error (.invalidArgument
      "UUID requires exactly 16 bytes, got 0") ∧
    Cimpl.fromBytes (List.replicate 16 0) = .error (.runtimeError
      "fromBytes not yet implemented - add uuid_from_bytes to C API") :=
  ⟨by rw [(fromBytes_never_returns []).2.1 (by decide)]; rfl,
   (fromBytes_never_returns (List.replicate 16 0)).2.2 (by decide)⟩

/-! ## Helper lemmas for the wrapper null-pointer invariant -/

theorem uuidCtor_ok_isSome (p : Option (List Nat)) (e : ErrChan) :
    ∀ u e2, uuidCtor p e = (.ok u, e2) → u.ptr_.isSome := by
  intro u e2 hres
  cases p with
  | some v =>
    simp only [uuidCtor] at hres
    injection hres with h1 h2
    injection h1 with h1b
    subst h1b
    rfl
  | none =>
    simp only [uuidCtor] at hres
    split at hres
    · injection hres with h1 h2
      injection h1
    · injection hres with h1 h2
      injection h1

theorem copyCtor_ok_isSome (pr : Option (List Nat)) (e : ErrChan)
    (hcontract : pr = none → e.code ≠ 0) :
    ∀ u e2, copyCtor pr e = (.ok u, e2) → u.ptr_.isSome := by
  intro u e2 hres
  cases pr with
  | some v =>
    simp only [copyCtor] at hres
    injection hres with h1 h2
    injection h1 with h1b
    subst h1b
    rfl
  | none =>
    have hc := hcontract rfl
    simp only [copyCtor] at hres
    unfold checkError at hres
    rw [if_pos hc] at hres
    simp at hres

/-- C10: every successfully constructed wrapper object holds a non-null
underlying pointer: the private constructor always throws on a null
pointer, and factories and both copy operations — which rely on the C
API setting the error channel before returning null — never produce a
wrapper around a null handle. -/
theorem wrapper_never_null (p pr : Option (List Nat)) (e : ErrChan)
    (cur : CppUuid) (same : Bool)
    (hcontract : pr = none → e.code ≠ 0) :
    (∀ u e2, uuidCtor p e = (.ok u, e2) → u.ptr_.isSome) ∧
    (∀ u e2, parseFactory p e = (.ok u, e2) → u.ptr_.isSome) ∧
    (∀ u e2, copyCtor pr e = (.ok u, e2) → u.ptr_.isSome) ∧
    (∀ u e2, cur.ptr_.isSome → copyAssign cur same pr e = (.ok u, e2) →
      u.ptr_.isSome) := by
  refine ⟨uuidCtor_ok_isSome p e, ?_, copyCtor_ok_isSome pr e hcontract, ?_⟩
  · intro u e2 hres
    cases p with
    | some v =>
      simp only [parseFactory] at hres
      exact uuidCtor_ok_isSome (some v) e u e2 hres
    | none =>
      simp only [parseFactory] at hres
      split at hres
      · injection hres with h1 h2
        injection h1
      · exact uuidCtor_ok_isSome none _ u e2 hres
  · intro u e2 hcur hres
    cases same with
    | true =>
      simp only [copyAssign] at hres
      rw [if_true] at hres
      injection hres with h1 h2
      injection h1 with h1b
      subst h1b
      exact hcur
    | false =>
      simp only [copyAssign] at hres
      rw [if_neg (by simp)] at hres
      exact copyCtor_ok_isSome pr e hcontract u e2 hres

/-- Closed witness for wrapper_never_null: a copy whose parse succeeded
holds a non-null pointer. -/
theorem wrapper_never_null_witness :
    (Cimpl.CppUuid.mk (some Cimpl.uuidNil)).ptr_.isSome :=
  (wrapper_never_null (some uuidNil) (some uuidNil) ⟨0, ""⟩ ⟨none⟩ false
    (by simp)).2.2.1 ⟨some uuidNil⟩ ⟨0, ""⟩ rfl

/-! ## Inversion lemmas for the parser -/

theorem expectDash_eq_some (r r2 : List Char) (h : expectDash r = some r2) :
    r = '-' :: r2 := by
  unfold expectDash at h
  split at h
  · injection h with h1
    rw [h1]
  · cases h

theorem readBytes_some (n : Nat) :
    ∀ cs bs rest, readBytes n cs = some (bs, rest) →
      ∃ g : List Char, cs = g ++ rest ∧ g.length = 2 * n ∧
        (∀ c ∈ g, (hexVal? c).isSome) := by
  induction n with
  | zero =>
    intro cs bs rest h
    simp only [readBytes] at h
    injection h with h1
    injection h1 with hbs hrest
    exact ⟨[], by rw [hrest]; rfl, rfl, by simp⟩
  | succ n ih =>
    intro cs bs rest h
    match cs with
    | [] => simp [readBytes] at h
    | [c] => simp [readBytes] at h
    | c1 :: c2 :: cs2 =>
      simp only [readBytes] at h
      cases hh1 : hexVal? c1 with
      | none =>
        simp only [hh1] at h
        exact Option.noConfusion h
      | some hi =>
        cases hh2 : hexVal? c2 with
        | none =>
          simp only [hh1, hh2] at h
          exact Option.noConfusion h
        | some lo =>
          simp only [hh1, hh2] at h
          cases hrb : readBytes n cs2 with
          | none =>
            simp only [hrb] at h
            exact Option.noConfusion h
          | some pr =>
            obtain ⟨bs2, rest2⟩ := pr
            simp only [hrb] at h
            injection h with h1
            injection h1 with hb hr2
            obtain ⟨g, hg1, hg2, hg3⟩ := ih cs2 bs2 rest2 hrb
            refine ⟨c1 :: c2 :: g, ?_, ?_, ?_⟩
            · rw [hg1, hr2]
              rfl
            · simp only [List.length_cons, hg2]
              omega
            · intro c hc
              simp only [List.mem_cons] at hc
              rcases hc with rfl | rfl | hc
              · rw [hh1]; rfl
              · rw [hh2]; rfl
              · exact hg3 c hc

theorem readBytes_of_hex (n : Nat) :
    ∀ g rest, g.length = 2 * n → (∀ c ∈ g, (hexVal? c).isSome) →
      ∃ bs, readBytes n (g ++ rest) = some (bs, rest) := by
  induction n with
  | zero =>
    intro g rest hl _
    have hg : g = [] := List.length_eq_zero.mp (by omega)
    subst hg
    exact ⟨[], rfl⟩
  | succ n ih =>
    intro g rest hl hhex
    match g with
    | [] => simp at hl
    | [c] => simp at hl; omega
    | c1 :: c2 :: g2 =>
      have h1 : (hexVal? c1).isSome := hhex c1 (by simp)
      have h2 : (hexVal? c2).isSome := hhex c2 (by simp)
      obtain ⟨v1, hv1⟩ := Option.isSome_iff_exists.mp h1
      obtain ⟨v2, hv2⟩ := Option.isSome_iff_exists.mp h2
      have hg2 : g2.length = 2 * n := by
        simp only [List.length_cons] at hl
        omega
      obtain ⟨bs2, hbs2⟩ := ih g2 rest hg2 (fun c hc => hhex c (by simp [hc]))
      refine ⟨(v1 * 16 + v2) :: bs2, ?_⟩
      simp only [List.cons_append, List.append_eq, readBytes, hv1, hv2, hbs2]

/-- C7: uuid_parse accepts exactly the canonical 8-4-4-4-12 hyphenated
hexadecimal form, case-insensitively; on any other input it returns no
value, and the library entry point records ParseError in the error
channel before returning its null sentinel. -/
theorem parse_exact_canonical :
    (∀ cs : List Char, (uuidParse cs).isSome ↔ IsCanonicalShape cs) ∧
    uuidParse ("not-a-valid-uuid".toList) = none ∧
    uuidParse ("550E8400-E29B-41D4-A716-446655440000".toList) =
      uuidParse ("550e8400-e29b-41d4-a716-446655440000".toList) ∧
    (uuidParse ("550e8400-e29b-41d4-a716-446655440000".toList)).isSome ∧
    (∀ s text, uuidParse text.toList = none →
      parseOp s text = (.error .parseError,
        ⟨s.reg, .set .parseError "invalid UUID format"⟩)) := by
  refine ⟨?_, rfl, rfl, rfl, ?_⟩
  · intro cs
    constructor
    · intro hsome
      obtain ⟨bs, hbs⟩ := Option.isSome_iff_exists.mp hsome
      unfold uuidParse at hbs
      cases h4 : readBytes 4 cs with
      | none =>
        simp only [h4] at hbs
        exact Option.noConfusion hbs
      | some q1 =>
      obtain ⟨b1, r0⟩ := q1
      simp only [h4] at hbs
      cases hd1 : expectDash r0 with
      | none =>
        simp only [hd1] at hbs
        exact Option.noConfusion hbs
      | some r1 =>
      simp only [hd1] at hbs
      cases hrb2 : readBytes 2 r1 with
      | none =>
        simp only [hrb2] at hbs
        exact Option.noConfusion hbs
      | some q2 =>
      obtain ⟨b2, r2⟩ := q2
      simp only [hrb2] at hbs
      cases hd2 : expectDash r2 with
      | none =>
        simp only [hd2] at hbs
        exact Option.noConfusion hbs
      | some r3 =>
      simp only [hd2] at hbs
      cases hrb3 : readBytes 2 r3 with
      | none =>
        simp only [hrb3] at hbs
        exact Option.noConfusion hbs
      | some q3 =>
      obtain ⟨b3, r4⟩ := q3
      simp only [hrb3] at hbs
      cases hd3 : expectDash r4 with
      | none =>
        simp only [hd3] at hbs
        exact Option.noConfusion hbs
      | some r5 =>
      simp only [hd3] at hbs
      cases hrb4 : readBytes 2 r5 with
      | none =>
        simp only [hrb4] at hbs
        exact Option.noConfusion hbs
      | some q4 =>
      obtain ⟨b4, r6⟩ := q4
      simp only [hrb4] at hbs
      cases hd4 : expectDash r6 with
      | none =>
        simp only [hd4] at hbs
        exact Option.noConfusion hbs
      | some r7 =>
      simp only [hd4] at hbs
      cases hrb5 : readBytes 6 r7 with
      | none =>
        simp only [hrb5] at hbs
        exact Option.noConfusion hbs
      | some q5 =>
      obtain ⟨b5, rest5⟩ := q5
      simp only [hrb5] at hbs
      cases rest5 with
      | cons c cs5 =>
        simp only [] at hbs
        exact Option.noConfusion hbs
      | nil =>
      obtain ⟨g1, hg1, hgl1, hx1⟩ := readBytes_some 4 cs b1 r0 h4
      obtain ⟨g2, hg2, hgl2, hx2⟩ := readBytes_some 2 r1 b2 r2 hrb2
      obtain ⟨g3, hg3, hgl3, hx3⟩ := readBytes_some 2 r3 b3 r4 hrb3
      obtain ⟨g4, hg4, hgl4, hx4⟩ := readBytes_some 2 r5 b4 r6 hrb4
      obtain ⟨g5, hg5, hgl5, hx5⟩ := readBytes_some 6 r7 b5 [] hrb5
      rw [List.append_nil] at hg5
      refine ⟨g1, g2, g3, g4, g5, ?_, by omega, by omega, by omega,
        by omega, by omega, ?_⟩
      · rw [hg1, expectDash_eq_some r0 r1 hd1, hg2,
          expectDash_eq_some r2 r3 hd2, hg3,
          expectDash_eq_some r4 r5 hd3, hg4,
          expectDash_eq_some r6 r7 hd4, hg5]
      · intro c hc
        simp only [List.mem_append] at hc
        rcases hc with ⟨⟨⟨hc | hc⟩ | hc⟩ | hc⟩ | hc
        · exact hx1 c hc
        · exact hx2 c hc
        · exact hx3 c hc
        · exact hx4 c hc
        · exact hx5 c hc
    · rintro ⟨g1, g2, g3, g4, g5, hcs, hl1, hl2, hl3, hl4, hl5, hhex⟩
      have x1 : ∀ c ∈ g1, (hexVal? c).isSome := fun c hc => hhex c (by simp [hc])
      have x2 : ∀ c ∈ g2, (hexVal? c).isSome := fun c hc => hhex c (by simp [hc])
      have x3 : ∀ c ∈ g3, (hexVal? c).isSome := fun c hc => hhex c (by simp [hc])
      have x4 : ∀ c ∈ g4, (hexVal? c).isSome := fun c hc => hhex c (by simp [hc])
      have x5 : ∀ c ∈ g5, (hexVal? c).isSome := fun c hc => hhex c (by simp [hc])
      obtain ⟨b5, e5⟩ := readBytes_of_hex 6 g5 [] (by omega) x5
      rw [List.append_nil] at e5
      obtain ⟨b4, e4⟩ := readBytes_of_hex 2 g4 ('-' :: g5) (by omega) x4
      obtain ⟨b3, e3⟩ := readBytes_of_hex 2 g3 ('-' :: (g4 ++ '-' :: g5))
        (by omega) x3
      obtain ⟨b2, e2⟩ := readBytes_of_hex 2 g2
        ('-' :: (g3 ++ '-' :: (g4 ++ '-' :: g5))) (by omega) x2
      obtain ⟨b1, e1⟩ := readBytes_of_hex 4 g1
        ('-' :: (g2 ++ '-' :: (g3 ++ '-' :: (g4 ++ '-' :: g5)))) (by omega) x1
      subst hcs
      simp only [uuidParse, e1, e2, e3, e4, e5, expectDash]
      rfl
  · intro s text h
    unfold parseOp
    rw [h]

/-- Closed witness for parse_exact_canonical: a failing parse records
ParseError in the channel. -/
theorem parse_exact_canonical_witness :
    Cimpl.parseOp ⟨⟨[]⟩, ⟨0, ""⟩⟩ "nope" = (.error .parseError,
      ⟨⟨[]⟩, .set .parseError "invalid UUID format"⟩) :=
  parse_exact_canonical.2.2.2.2 ⟨⟨[]⟩, ⟨0, ""⟩⟩ "nope" rfl

end Cimpl
